import Mathlib

/-!
Verification of the `rng` repository: a FastAPI service serving pseudo-random
values derived from multiple entropy sources (CPU timing jitter, network
timing jitter, live camera images) mixed through a rotating HMAC-SHA256
secret chain.

The development shallowly embeds the Python source:
  * `src/rng.py`           — secret rotation and output derivation (`rng` handler),
  * `src/entropy/livecam.py` — region extraction, partitioned prefetch buffers,
  * `src/entropy/cpu_jitter.py`, `src/entropy/network_jitter.py` — timing samplers.
Bytes are modelled as `Nat` (< 256 where produced by the code), byte strings as
`List Nat`, wall-clock time as `ℚ`, and the nondeterministic environment of a
request (OS randomness, timing samples, source outcomes) as explicit inputs.
The handler's float division is modelled by its exact IEEE-754 binary64 value
(53-significant-bit rounding, ties to even) as a rational.
-/

/-- Big-endian serialisation of `n` into `len` bytes, modelling Python's
`int.to_bytes(len, "big")` for values below `256 ^ len` (Python raises
`OverflowError` above that bound; the embedding truncates, and all uses in
the source stay below the bound). -/
def toBytesBE (len n : Nat) : List Nat :=
  (List.range len).map (fun i => n / 256 ^ (len - 1 - i) % 256)

/-- Big-endian interpretation of a byte string as an unsigned integer,
modelling Python's `int.from_bytes(b, "big")`. -/
def natFromBytesBE (l : List Nat) : Nat :=
  List.foldl (fun acc b => acc * 256 + b) 0 l

theorem toBytesBE_length (len n : Nat) : (toBytesBE len n).length = len := by
  simp [toBytesBE]

theorem toBytesBE_lt (len n : Nat) : ∀ b ∈ toBytesBE len n, b < 256 := by
  intro b hb
  simp only [toBytesBE, List.mem_map, List.mem_range] at hb
  obtain ⟨i, _, rfl⟩ := hb
  exact Nat.mod_lt _ (by omega)

theorem natFromBytesBE_foldl_lt (l : List Nat) (hl : ∀ b ∈ l, b < 256) :
    ∀ acc, List.foldl (fun acc b => acc * 256 + b) acc l < (acc + 1) * 256 ^ l.length := by
  induction l with
  | nil => intro acc; simp
  | cons b t ih =>
    intro acc
    have hb : b < 256 := hl b (List.mem_cons_self b t)
    have ht : ∀ x ∈ t, x < 256 := fun x hx => hl x (List.mem_cons_of_mem b hx)
    have h1 := ih ht (acc * 256 + b)
    have h2 : (acc * 256 + b + 1) * 256 ^ t.length ≤ (acc + 1) * 256 ^ (t.length + 1) := by
      have : acc * 256 + b + 1 ≤ (acc + 1) * 256 := by nlinarith
      calc (acc * 256 + b + 1) * 256 ^ t.length
          ≤ (acc + 1) * 256 * 256 ^ t.length := Nat.mul_le_mul_right _ this
        _ = (acc + 1) * 256 ^ (t.length + 1) := by ring
    simpa [List.foldl_cons, List.length_cons] using lt_of_lt_of_le h1 h2

theorem natFromBytesBE_lt (l : List Nat) (hl : ∀ b ∈ l, b < 256) :
    natFromBytesBE l < 256 ^ l.length := by
  simpa [natFromBytesBE] using natFromBytesBE_foldl_lt l hl 0

/-! ## SHA-256 and HMAC-SHA256

The source calls Python's `hashlib.sha256` and `hmac.new(key, msg, hashlib.sha256)`.
These library primitives are embedded concretely (FIPS 180-4 / RFC 2104) over
`List Nat` byte strings, 32-bit words as `Nat` reduced mod `2 ^ 32`. -/

def add32 (a b : Nat) : Nat := (a + b) % 4294967296

def rotr32 (x r : Nat) : Nat := ((x >>> r) ||| (x <<< (32 - r))) % 4294967296

def shaCh (x y z : Nat) : Nat := (x &&& y) ^^^ ((x ^^^ 4294967295) &&& z)

def shaMaj (x y z : Nat) : Nat := (x &&& y) ^^^ (x &&& z) ^^^ (y &&& z)

def bigSigma0 (x : Nat) : Nat := rotr32 x 2 ^^^ rotr32 x 13 ^^^ rotr32 x 22

def bigSigma1 (x : Nat) : Nat := rotr32 x 6 ^^^ rotr32 x 11 ^^^ rotr32 x 25

def smallSigma0 (x : Nat) : Nat := rotr32 x 7 ^^^ rotr32 x 18 ^^^ (x >>> 3)

def smallSigma1 (x : Nat) : Nat := rotr32 x 17 ^^^ rotr32 x 19 ^^^ (x >>> 10)

def sha256K : List Nat :=
  [1116352408, 1899447441, 3049323471, 3921009573, 961987163,
   1508970993, 2453635748, 2870763221, 3624381080, 310598401,
   607225278, 1426881987, 1925078388, 2162078206, 2614888103,
   3248222580, 3835390401, 4022224774, 264347078, 604807628,
   770255983, 1249150122, 1555081692, 1996064986, 2554220882,
   2821834349, 2952996808, 3210313671, 3336571891, 3584528711,
   113926993, 338241895, 666307205, 773529912, 1294757372,
   1396182291, 1695183700, 1986661051, 2177026350, 2456956037,
   2730485921, 2820302411, 3259730800, 3345764771, 3516065817,
   3600352804, 4094571909, 275423344, 430227734, 506948616,
   659060556, 883997877, 958139571, 1322822218, 1537002063,
   1747873779, 1955562222, 2024104815, 2227730452, 2361852424,
   2428436474, 2756734187, 3204031479, 3329325298]

structure Hash8 where
  a : Nat
  b : Nat
  c : Nat
  d : Nat
  e : Nat
  f : Nat
  g : Nat
  h : Nat

def initHash : Hash8 :=
  ⟨1779033703, 3144134277, 1013904242, 2773480762,
   1359893119, 2600822924, 528734635, 1541459225⟩

/-- SHA-256 padding: append `0x80`, zeros to 56 mod 64, then the 8-byte
big-endian bit length. -/
def padMessage (msg : List Nat) : List Nat :=
  let L := msg.length
  let k := (119 - L % 64) % 64
  msg ++ [0x80] ++ List.replicate k 0 ++ toBytesBE 8 (8 * L)

def bytesToWords : List Nat → List Nat
  | a :: b :: c :: d :: rest => (((a * 256 + b) * 256 + c) * 256 + d) :: bytesToWords rest
  | _ => []

/-- Split a word stream into 16-word blocks; the fuel argument (instantiated
with the list length) keeps the recursion structural. -/
def chunk16 : Nat → List Nat → List (List Nat)
  | 0, _ => []
  | _, [] => []
  | fuel + 1, ws => ws.take 16 :: chunk16 fuel (ws.drop 16)

/-- One step of message-schedule extension: append
`σ1(w[n-2]) + w[n-7] + σ0(w[n-15]) + w[n-16]` (mod 2^32). -/
def scheduleStep (ws : List Nat) : List Nat :=
  let n := ws.length
  ws ++ [add32 (add32 (smallSigma1 (ws.getD (n - 2) 0)) (ws.getD (n - 7) 0))
               (add32 (smallSigma0 (ws.getD (n - 15) 0)) (ws.getD (n - 16) 0))]

def schedule (block : List Nat) : List Nat := scheduleStep^[48] block

def compressRound (st : Hash8) (k w : Nat) : Hash8 :=
  let t1 := add32 st.h (add32 (bigSigma1 st.e) (add32 (shaCh st.e st.f st.g) (add32 k w)))
  let t2 := add32 (bigSigma0 st.a) (shaMaj st.a st.b st.c)
  ⟨add32 t1 t2, st.a, st.b, st.c, add32 st.d t1, st.e, st.f, st.g⟩

def compressBlock (st : Hash8) (block : List Nat) : Hash8 :=
  let fin := (List.zip sha256K (schedule block)).foldl
    (fun s p => compressRound s p.1 p.2) st
  ⟨add32 st.a fin.a, add32 st.b fin.b, add32 st.c fin.c, add32 st.d fin.d,
   add32 st.e fin.e, add32 st.f fin.f, add32 st.g fin.g, add32 st.h fin.h⟩

def wordToBytes (w : Nat) : List Nat :=
  [w / 16777216 % 256, w / 65536 % 256, w / 256 % 256, w % 256]

def digestBytes (st : Hash8) : List Nat :=
  wordToBytes st.a ++ wordToBytes st.b ++ wordToBytes st.c ++ wordToBytes st.d ++
  wordToBytes st.e ++ wordToBytes st.f ++ wordToBytes st.g ++ wordToBytes st.h

/-- SHA-256 of a byte string, as called through `hashlib.sha256(...).digest()`. -/
def sha256 (msg : List Nat) : List Nat :=
  let ws := bytesToWords (padMessage msg)
  digestBytes ((chunk16 ws.length ws).foldl compressBlock initHash)

/-- HMAC-SHA256, as called through `hmac.new(key, msg, hashlib.sha256).digest()`
(RFC 2104 with a 64-byte block size). -/
def hmacSha256 (key msg : List Nat) : List Nat :=
  let k0 := if 64 < key.length then sha256 key else key
  let kp := k0 ++ List.replicate (64 - k0.length) 0
  let ipad := kp.map (fun b => b ^^^ 0x36)
  let opad := kp.map (fun b => b ^^^ 0x5c)
  sha256 (opad ++ sha256 (ipad ++ msg))

theorem digestBytes_length (st : Hash8) : (digestBytes st).length = 32 := by
  simp [digestBytes, wordToBytes]

theorem mem_wordToBytes_lt (w b : Nat) (hb : b ∈ wordToBytes w) : b < 256 := by
  simp only [wordToBytes, List.mem_cons, List.not_mem_nil, or_false] at hb
  rcases hb with rfl | rfl | rfl | rfl <;> exact Nat.mod_lt _ (by omega)

theorem mem_digestBytes_lt (st : Hash8) (b : Nat) (hb : b ∈ digestBytes st) : b < 256 := by
  simp only [digestBytes, List.mem_append] at hb
  rcases hb with ((((((h | h) | h) | h) | h) | h) | h) | h <;>
    exact mem_wordToBytes_lt _ _ h

theorem sha256_length (msg : List Nat) : (sha256 msg).length = 32 := by
  simp [sha256, digestBytes_length]

theorem mem_sha256_lt (msg : List Nat) (b : Nat) (hb : b ∈ sha256 msg) : b < 256 := by
  simp only [sha256] at hb
  exact mem_digestBytes_lt _ _ hb

theorem hmacSha256_length (key msg : List Nat) : (hmacSha256 key msg).length = 32 := by
  simp [hmacSha256, sha256_length]

theorem mem_hmacSha256_lt (key msg : List Nat) (b : Nat) (hb : b ∈ hmacSha256 key msg) :
    b < 256 := by
  simp only [hmacSha256] at hb
  exact mem_sha256_lt _ _ hb

/-! ## Secret rotation and output derivation (src/rng.py)

The `/rng` handler body runs entirely under one global mutex; its effect on the
globals `request_counter`, `last_rotation`, `SESSION_SECRET` is embedded as a
pure state-transition function. Every nondeterministic sample taken during one
request (wall-clock reads, `os.urandom`, entropy-source outputs, the live-camera
collection outcome) is an explicit field of `RngEnv`. Wall-clock seconds
(`time.time()`) are modelled as `ℚ`, nanosecond timestamps (`time.time_ns()`)
as `Nat`. -/

def ROTATE_EVERY_REQUESTS : Nat := 100

def ROTATE_EVERY_SECONDS : ℚ := 30

structure RngState where
  request_counter : Nat
  last_rotation : ℚ
  session_secret : List Nat

/-- Environment of a single `/rng` request: every value the handler reads that
is not part of the mutated global state, in the order the code samples them. -/
structure RngEnv where
  now : ℚ
  urandom_rot : List Nat
  cpu_net_entropy : List Nat
  time_ns_rot : Nat
  now_rot : ℚ
  livecam : Except String (List Nat)
  cpu_entropy : List Nat
  urandom_out : List Nat
  time_ns_out : Nat

/-- Rotation predicate of the handler (src/rng.py lines 136-139), evaluated on
the already-incremented counter. -/
def should_rotate (counter : Nat) (now last_rot : ℚ) : Bool :=
  decide (counter % ROTATE_EVERY_REQUESTS = 0) || decide (now - last_rot > ROTATE_EVERY_SECONDS)

/-- Entropy gathered by `rotate_secret` (src/rng.py lines 112-117):
`os.urandom(32)`, CPU+network jitter collection, the 8-byte big-endian counter,
the 8-byte big-endian nanosecond timestamp. -/
def rotation_entropy (env : RngEnv) (counter : Nat) : List Nat :=
  env.urandom_rot ++ env.cpu_net_entropy ++ toBytesBE 8 counter ++ toBytesBE 8 env.time_ns_rot

/-- `rotate_secret` (src/rng.py lines 108-125): chain the secret through
HMAC-SHA256 keyed by the prior secret, and stamp `last_rotation`. -/
def rotate_secret (s : RngState) (env : RngEnv) : RngState :=
  ⟨s.request_counter,
   env.now_rot,
   hmacSha256 s.session_secret (rotation_entropy env s.request_counter)⟩

/-- Entropy gathered for output derivation (src/rng.py lines 143-156): the
live-camera region bytes when collection succeeded (empty on exception, caught
at lines 145-148), CPU jitter, `os.urandom(32)`, counter, timestamp. -/
def output_entropy (env : RngEnv) (counter : Nat) : List Nat :=
  (match env.livecam with
   | Except.ok e => e
   | Except.error _ => []) ++
  env.cpu_entropy ++ env.urandom_out ++ toBytesBE 8 counter ++ toBytesBE 8 env.time_ns_out

/-- Round-to-nearest with ties to even at a power-of-two granularity:
`m` is the truncated quotient, `r` the remainder, `half` half the divisor. -/
def roundHalfEven (m r half : Nat) : Nat :=
  if half < r then m + 1 else if r < half then m else if m % 2 = 0 then m else m + 1

/-- Round a natural number to 53 significant bits, ties to even — the
IEEE-754 binary64 significand rounding. Values below `2 ^ 53` are exact. -/
def roundSig53 (n : Nat) : Nat :=
  if n < 2 ^ 53 then n
  else
    roundHalfEven (n / 2 ^ (Nat.log2 n - 52)) (n % 2 ^ (Nat.log2 n - 52))
      (2 ^ (Nat.log2 n - 52 - 1)) * 2 ^ (Nat.log2 n - 52)

/-- Exact rational value of the CPython expression `n / 2**64` for
`0 ≤ n < 2 ^ 64`: true division of two ints yields the correctly rounded
IEEE-754 binary64 (round to nearest, ties to even). Dividing by this power of
two only shifts the exponent, which stays in the normal range on `[2⁻⁶⁴, 1]`,
so the rounding is exactly the 53-significant-bit rounding of `n`; in
particular the quotient rounds up to exactly 1.0 whenever
`n ≥ 2 ^ 64 - 2 ^ 10`. -/
def ieeeQuotient64 (n : Nat) : ℚ := (roundSig53 n : ℚ) / 2 ^ 64

structure RngResponse where
  status : Nat
  random : ℚ

/-- The `/rng` handler (src/rng.py lines 128-173) as a transition on the global
state: increment the counter, rotate the secret when the predicate fires,
derive the binary64 value of `int.from_bytes(mac[:8], "big") / 2**64` from the
HMAC tag, and return it with HTTP status 200 (`JSONResponse` default). -/
def rng (s : RngState) (env : RngEnv) : RngState × RngResponse :=
  let s1 : RngState := ⟨s.request_counter + 1, s.last_rotation, s.session_secret⟩
  let s2 := if should_rotate s1.request_counter env.now s1.last_rotation
            then rotate_secret s1 env else s1
  let mac := hmacSha256 s2.session_secret (output_entropy env s2.request_counter)
  (s2, ⟨200, ieeeQuotient64 (natFromBytesBE (mac.take 8))⟩)

theorem natFromBytesBE_take8_hmac_lt (key msg : List Nat) :
    natFromBytesBE ((hmacSha256 key msg).take 8) < 2 ^ 64 := by
  have hlen : ((hmacSha256 key msg).take 8).length = 8 := by
    simp [List.length_take, hmacSha256_length]
  have hmem : ∀ b ∈ (hmacSha256 key msg).take 8, b < 256 := by
    intro b hb
    exact mem_hmacSha256_lt key msg b (List.take_subset 8 _ hb)
  have := natFromBytesBE_lt _ hmem
  rw [hlen] at this
  calc natFromBytesBE ((hmacSha256 key msg).take 8) < 256 ^ 8 := this
    _ = 2 ^ 64 := by norm_num

theorem roundHalfEven_le (m r half : Nat) : roundHalfEven m r half ≤ m + 1 := by
  unfold roundHalfEven
  split_ifs <;> omega

theorem roundSig53_le_pow64 (n : Nat) (h : n < 2 ^ 64) : roundSig53 n ≤ 2 ^ 64 := by
  rw [roundSig53]
  by_cases hsmall : n < 2 ^ 53
  · rw [if_pos hsmall]; omega
  · rw [if_neg hsmall]
    have hn0 : n ≠ 0 := by omega
    have hlog_lt : Nat.log2 n < 64 := (Nat.log2_lt hn0).mpr h
    have hlog_ge : 53 ≤ Nat.log2 n := (Nat.le_log2 hn0).mpr (by omega)
    have h1 : n < 2 ^ (Nat.log2 n + 1) := (Nat.log2_lt hn0).mp (Nat.lt_succ_self _)
    have hm : n / 2 ^ (Nat.log2 n - 52) < 2 ^ 53 := by
      rw [Nat.div_lt_iff_lt_mul (pow_pos (by norm_num) _)]
      have he : (2 : Nat) ^ 53 * 2 ^ (Nat.log2 n - 52) = 2 ^ (Nat.log2 n + 1) := by
        rw [← pow_add]
        congr 1
        omega
      rw [he]
      exact h1
    have hb := roundHalfEven_le (n / 2 ^ (Nat.log2 n - 52)) (n % 2 ^ (Nat.log2 n - 52))
      (2 ^ (Nat.log2 n - 52 - 1))
    calc roundHalfEven (n / 2 ^ (Nat.log2 n - 52)) (n % 2 ^ (Nat.log2 n - 52))
          (2 ^ (Nat.log2 n - 52 - 1)) * 2 ^ (Nat.log2 n - 52)
        ≤ 2 ^ 53 * 2 ^ (Nat.log2 n - 52) := Nat.mul_le_mul_right _ (by omega)
      _ = 2 ^ (53 + (Nat.log2 n - 52)) := (pow_add 2 53 _).symm
      _ ≤ 2 ^ 64 := Nat.pow_le_pow_right (by norm_num) (by omega)

theorem log2_pow64_sub_one : Nat.log2 (2 ^ 64 - 1) = 63 := by
  have hn0 : (2 : Nat) ^ 64 - 1 ≠ 0 := by norm_num
  have h1 : Nat.log2 (2 ^ 64 - 1) < 64 := (Nat.log2_lt hn0).mpr (by norm_num)
  have h2 : 63 ≤ Nat.log2 (2 ^ 64 - 1) := (Nat.le_log2 hn0).mpr (by norm_num)
  omega

/-- The rounding model is exercised at the top of the range: the prefix
`2 ^ 64 - 1` (all tag bits set) rounds up to `2 ^ 64`, i.e. the Python float
quotient is exactly 1.0 there — the same holds for every prefix at or above
`2 ^ 64 - 2 ^ 10`, which is why only the closed bound below is provable. -/
theorem roundSig53_top_rounds_up : roundSig53 (2 ^ 64 - 1) = 2 ^ 64 := by
  rw [roundSig53, if_neg (by norm_num), log2_pow64_sub_one]
  norm_num [roundHalfEven]

theorem ieeeQuotient64_mem_closed_unit (n : Nat) (h : n < 2 ^ 64) :
    0 ≤ ieeeQuotient64 n ∧ ieeeQuotient64 n ≤ 1 := by
  constructor
  · rw [ieeeQuotient64]; positivity
  · rw [ieeeQuotient64, div_le_one (by positivity)]
    calc (roundSig53 n : ℚ) ≤ ((2 : Nat) ^ 64 : ℚ) := by
          exact_mod_cast roundSig53_le_pow64 n h
      _ = 2 ^ 64 := by push_cast; ring

/-- The derived value of every request lies in the closed unit interval under
the exact binary64 model: at least 0 and at most 1. The half-open bound of the
specification would additionally require that no reachable HMAC-SHA256 tag has
its first 54 bits all set (prefix at or above `2 ^ 64 - 2 ^ 10`), which this
development neither proves nor refutes. -/
theorem rng_value_in_closed_unit (s : RngState) (env : RngEnv) :
    0 ≤ (rng s env).2.random ∧ (rng s env).2.random ≤ 1 := by
  have h := ieeeQuotient64_mem_closed_unit
    (natFromBytesBE ((hmacSha256
      (if should_rotate (s.request_counter + 1) env.now s.last_rotation
       then rotate_secret ⟨s.request_counter + 1, s.last_rotation, s.session_secret⟩ env
       else ⟨s.request_counter + 1, s.last_rotation, s.session_secret⟩).session_secret
      (output_entropy env
        (if should_rotate (s.request_counter + 1) env.now s.last_rotation
         then rotate_secret ⟨s.request_counter + 1, s.last_rotation, s.session_secret⟩ env
         else ⟨s.request_counter + 1, s.last_rotation, s.session_secret⟩).request_counter)).take 8))
    (natFromBytesBE_take8_hmac_lt _ _)
  simpa [rng] using h

/-- C1: for every request processed by the `/rng` handler, the secret is
rotated if and only if, after the counter increment, the counter is divisible
by `ROTATE_EVERY_REQUESTS` or the elapsed time since the last rotation
strictly exceeds `ROTATE_EVERY_SECONDS`; and the rotated secret is exactly the
deterministic value HMAC-SHA256(prior secret, gathered entropy) — the state
after the request is a pure function of the prior state and the sampled
environment, with `last_rotation` restamped exactly when rotation fires. -/
theorem rng_rotation_iff_and_deterministic (s : RngState) (env : RngEnv) :
    (rng s env).1.session_secret =
      (if should_rotate (s.request_counter + 1) env.now s.last_rotation
       then hmacSha256 s.session_secret (rotation_entropy env (s.request_counter + 1))
       else s.session_secret) ∧
    (rng s env).1.last_rotation =
      (if should_rotate (s.request_counter + 1) env.now s.last_rotation
       then env.now_rot
       else s.last_rotation) := by
  by_cases h : should_rotate (s.request_counter + 1) env.now s.last_rotation <;>
    simp [rng, rotate_secret, h]

/-- C7: the output tag is always computed with the secret as it stands after
the optional rotation of the same critical section: the returned value equals
the derivation from the post-request state's secret, so a rotating request
uses the newly rotated secret, never the stale one. -/
theorem rng_output_uses_current_secret (s : RngState) (env : RngEnv) :
    (rng s env).2.random =
      ieeeQuotient64 (natFromBytesBE ((hmacSha256 (rng s env).1.session_secret
        (output_entropy env (rng s env).1.request_counter)).take 8)) := by
  simp [rng]

/-! ## Region extraction (src/entropy/livecam.py, `_slice_regions`)

Python's `range(start, stop, step)` for positive `step` is embedded with a fuel
argument (instantiated with `stop - start`, enough for any `step ≥ 1`) to keep
the recursion structural. `step = 0`, which Python rejects with `ValueError`,
is outside every use in the source (`step` is always `region_size ≥ 1` there)
and outside every theorem below. -/

def pyRangeAux : Nat → Nat → Nat → Nat → List Nat
  | 0, _, _, _ => []
  | fuel + 1, start, stop, step =>
    if start < stop then start :: pyRangeAux fuel (start + step) stop step else []

/-- Python `range(start, stop, step)` for a positive step. -/
def pyRange (start stop step : Nat) : List Nat :=
  pyRangeAux (stop - start) start stop step

/-- Ceiling division on naturals, the length of `range(0, n, s)`. -/
def ceilDivNat (n s : Nat) : Nat := (n + s - 1) / s

theorem ceilDivNat_zero (s : Nat) (hs : 0 < s) : ceilDivNat 0 s = 0 := by
  unfold ceilDivNat
  exact Nat.div_eq_of_lt (by omega)

theorem ceilDivNat_step (n s : Nat) (hn : 0 < n) (hs : 0 < s) :
    ceilDivNat n s = ceilDivNat (n - s) s + 1 := by
  unfold ceilDivNat
  rcases Nat.le_total s n with h | h
  · have e : n + s - 1 = (n - s + s - 1) + s := by omega
    rw [e, Nat.add_div_right _ hs]
  · have hz : n - s = 0 := by omega
    rw [hz]
    have h1 : (0 + s - 1) / s = 0 := Nat.div_eq_of_lt (by omega)
    rw [h1]
    have lo : 1 ≤ (n + s - 1) / s := (Nat.le_div_iff_mul_le hs).mpr (by omega)
    have hi : (n + s - 1) / s < 2 := (Nat.div_lt_iff_lt_mul hs).mpr (by omega)
    omega

theorem pyRangeAux_length (fuel : Nat) :
    ∀ start stop step, 0 < step → stop - start ≤ fuel →
      (pyRangeAux fuel start stop step).length = ceilDivNat (stop - start) step := by
  induction fuel with
  | zero =>
    intro start stop step hs hf
    have : stop - start = 0 := by omega
    simp [pyRangeAux, this, ceilDivNat_zero _ hs]
  | succ fuel ih =>
    intro start stop step hs hf
    by_cases h : start < stop
    · have hrec := ih (start + step) stop step hs (by omega)
      have e : stop - (start + step) = stop - start - step := by omega
      rw [e] at hrec
      simp only [pyRangeAux, if_pos h, List.length_cons, hrec]
      rw [ceilDivNat_step (stop - start) step (by omega) hs]
    · have : stop - start = 0 := by omega
      simp [pyRangeAux, if_neg h, this, ceilDivNat_zero _ hs]

theorem pyRange_length (stop step : Nat) (hs : 0 < step) :
    (pyRange 0 stop step).length = ceilDivNat stop step := by
  simpa using pyRangeAux_length (stop - 0) 0 stop step hs (by omega)

theorem mem_pyRangeAux (fuel : Nat) :
    ∀ start stop step x, x ∈ pyRangeAux fuel start stop step → start ≤ x ∧ x < stop := by
  induction fuel with
  | zero => intro start stop step x hx; simp [pyRangeAux] at hx
  | succ fuel ih =>
    intro start stop step x hx
    simp only [pyRangeAux] at hx
    split at hx
    · rcases List.mem_cons.mp hx with rfl | hmem
      · omega
      · have := ih (start + step) stop step x hmem
        omega
    · simp at hx

theorem mem_pyRange (stop step x : Nat) (hx : x ∈ pyRange 0 stop step) : x < stop :=
  (mem_pyRangeAux _ _ _ _ _ hx).2

/-- A decoded RGB image: dimensions plus a pixel map, modelling the
`img.load()` accessor of a `PIL` image converted to RGB (each pixel is a
3-tuple of bytes). -/
structure RgbImage where
  width : Nat
  height : Nat
  pixel : Nat → Nat → Nat × Nat × Nat

def pixelBytes (p : Nat × Nat × Nat) : List Nat := [p.1, p.2.1, p.2.2]

/-- The region assembled at grid origin `(x, y)` (src/entropy/livecam.py lines
90-94): the RGB bytes of each pixel of the `region_size × region_size` block,
row-major (`dy` outer, `dx` inner). -/
def region_at (img : RgbImage) (region_size x y : Nat) : List Nat :=
  ((List.range region_size).map (fun dy =>
    ((List.range region_size).map (fun dx =>
      pixelBytes (img.pixel (x + dx) (y + dy)))).flatten)).flatten

/-- `_slice_regions` (src/entropy/livecam.py lines 82-97): scan grid origins
with `y` in `range(0, height - region_size, region_size)` and `x` likewise for
the width, collecting one region per origin. The trailing `random.shuffle`
permutes the returned list in place; it is omitted here, and every property
proved below (count, region length, access bounds) is invariant under any
permutation of the result. -/
def slice_regions (img : RgbImage) (region_size : Nat) : List (List Nat) :=
  ((pyRange 0 (img.height - region_size) region_size).map (fun y =>
    (pyRange 0 (img.width - region_size) region_size).map (fun x =>
      region_at img region_size x y))).flatten

theorem slice_regions_length_eq (img : RgbImage) (region_size : Nat) (h : 0 < region_size) :
    (slice_regions img region_size).length =
      ceilDivNat (img.height - region_size) region_size *
        ceilDivNat (img.width - region_size) region_size := by
  rw [slice_regions, List.length_flatten, List.map_map]
  have hmap : ((pyRange 0 (img.height - region_size) region_size).map
      (List.length ∘ fun y => (pyRange 0 (img.width - region_size) region_size).map
        (fun x => region_at img region_size x y))) =
      List.replicate (pyRange 0 (img.height - region_size) region_size).length
        (pyRange 0 (img.width - region_size) region_size).length := by
    refine List.eq_replicate_iff.mpr ⟨by simp, ?_⟩
    intro b hb
    simp only [List.mem_map, Function.comp] at hb
    obtain ⟨y, _, rfl⟩ := hb
    simp
  rw [hmap, List.sum_const_nat, pyRange_length _ _ h, pyRange_length _ _ h]

/-- A concrete 5-by-5 all-black image, used to separate the exclusive-bound
stride count from the floor formula. -/
def img5x5 : RgbImage := ⟨5, 5, fun _ _ => (0, 0, 0)⟩

/-- A concrete 4-by-4 all-black image (the spec's own worked example). -/
def img4x4 : RgbImage := ⟨4, 4, fun _ _ => (0, 0, 0)⟩

/-- C4 counterexample: on a 5-by-5 image with `region_size = 2` the extractor
yields 4 regions (origins (0,0), (2,0), (0,2), (2,2): Python
`range(0, 3, 2) = [0, 2]` on both axes), not the
`⌊(W−s)/s⌋ × ⌊(H−s)/s⌋ = 1 × 1 = 1` the claim's formula predicts. -/
theorem slice_regions_5x5_refutes_floor_formula :
    (slice_regions img5x5 2).length = 4 ∧
      (img5x5.width - 2) / 2 * ((img5x5.height - 2) / 2) = 1 := by
  constructor <;> rfl

/-- C4 amended: for every decoded image and positive block size `s`, the
extractor yields exactly `⌈(W−s)/s⌉ × ⌈(H−s)/s⌉` regions — the scan axes
iterate multiples of `s` strictly below `dimension − s`, so the count per axis
is a ceiling, not a floor; the 4-by-4, `region_size = 2` case still yields
exactly 1 region. -/
theorem slice_regions_count (img : RgbImage) (region_size : Nat) (h : 0 < region_size) :
    (slice_regions img region_size).length =
      ceilDivNat (img.height - region_size) region_size *
        ceilDivNat (img.width - region_size) region_size :=
  slice_regions_length_eq img region_size h

/-- Witness for `slice_regions_count`: the spec's worked 4-by-4 example with
`region_size = 2` yields exactly `⌈2/2⌉ × ⌈2/2⌉ = 1` region. -/
theorem slice_regions_count_witness :
    (slice_regions img4x4 2).length =
      ceilDivNat (img4x4.height - 2) 2 * ceilDivNat (img4x4.width - 2) 2 :=
  slice_regions_count img4x4 2 (by decide)

theorem region_at_length (img : RgbImage) (region_size x y : Nat) :
    (region_at img region_size x y).length = region_size * region_size * 3 := by
  rw [region_at, List.length_flatten, List.map_map]
  have hrow : ∀ dy : Nat,
      (((List.range region_size).map (fun dx =>
        pixelBytes (img.pixel (x + dx) (y + dy)))).flatten).length = region_size * 3 := by
    intro dy
    rw [List.length_flatten, List.map_map]
    have : ((List.range region_size).map
        (List.length ∘ fun dx => pixelBytes (img.pixel (x + dx) (y + dy)))) =
        List.replicate region_size 3 := by
      refine List.eq_replicate_iff.mpr ⟨by simp, ?_⟩
      intro b hb
      simp only [List.mem_map, Function.comp] at hb
      obtain ⟨dx, _, rfl⟩ := hb
      simp [pixelBytes]
    rw [this, List.sum_const_nat]
  have : ((List.range region_size).map
      (List.length ∘ fun dy => ((List.range region_size).map (fun dx =>
        pixelBytes (img.pixel (x + dx) (y + dy)))).flatten)) =
      List.replicate region_size (region_size * 3) := by
    refine List.eq_replicate_iff.mpr ⟨by simp, ?_⟩
    intro b hb
    simp only [List.mem_map, Function.comp] at hb
    obtain ⟨dy, _, rfl⟩ := hb
    exact hrow dy
  rw [this, List.sum_const_nat]
  ring

/-- C8: every region returned by `_slice_regions` is a byte sequence of
exactly `region_size² × 3` bytes — the RGB triplets of a
`region_size × region_size` pixel block in row-major order — and every pixel
access `pixels[x + dx, y + dy]` made while building a region lies strictly
inside the image bounds. -/
theorem slice_regions_region_length_and_bounds (img : RgbImage) (region_size : Nat) :
    (∀ r ∈ slice_regions img region_size, r.length = region_size * region_size * 3) ∧
    (∀ y ∈ pyRange 0 (img.height - region_size) region_size,
      ∀ x ∈ pyRange 0 (img.width - region_size) region_size,
        ∀ dy < region_size, ∀ dx < region_size,
          x + dx < img.width ∧ y + dy < img.height) := by
  constructor
  · intro r hr
    simp only [slice_regions, List.mem_flatten, List.mem_map] at hr
    obtain ⟨row, ⟨y, _, rfl⟩, hrow⟩ := hr
    obtain ⟨x, _, rfl⟩ := List.mem_map.mp hrow
    exact region_at_length img region_size x y
  · intro y hy x hx dy hdy dx hdx
    have hybound := mem_pyRange _ _ _ hy
    have hxbound := mem_pyRange _ _ _ hx
    omega

/-- Witness for `slice_regions_region_length_and_bounds` at the concrete
4-by-4 image with `region_size = 2`: its unique region has `2 × 2 × 3 = 12`
bytes, and the accesses from origin (0, 0) stay inside the image. -/
theorem slice_regions_region_length_and_bounds_witness :
    (region_at img4x4 2 0 0).length = 2 * 2 * 3 ∧ (0 + 1 < img4x4.width ∧ 0 + 1 < img4x4.height) :=
  ⟨(slice_regions_region_length_and_bounds img4x4 2).1 (region_at img4x4 2 0 0) (by decide),
   (slice_regions_region_length_and_bounds img4x4 2).2 0 (by decide) 0 (by decide)
     1 (by decide) 1 (by decide)⟩

/-! ## Partition buffers and the refill trigger (src/entropy/livecam.py)

Per-continent queue state of a `LiveCamSource`. Queues are FIFO lists (head =
next `get_nowait` result). The `prefetching` flags mirror
`_continent_prefetching`; a refill submission to the executor is the
observable event of `_check_and_refill_continent`. -/

structure LiveCamBuffers where
  target_buffer : Nat
  low_watermark : Nat
  queues : List (List (List Nat))
  prefetching : List Bool

/-- `_check_and_refill_continent` (src/entropy/livecam.py lines 180-190):
submit a refill job exactly when the continent's queue length is strictly
below `low_watermark` and the continent is not already prefetching. Returns
whether a job is submitted; the submission itself never blocks. -/
def check_and_refill_continent (m : LiveCamBuffers) (i : Nat) : Bool :=
  if (m.queues.getD i []).length < m.low_watermark then
    if m.prefetching.getD i false then false else true
  else false

/-- One partition's consumption step, the spec's `take_one`: pop the front
region of continent `i` when available (`queue.get_nowait()` at
src/entropy/livecam.py lines 231-237) and then run that continent's refill
check exactly as `_check_all_continents` does for it after the pop (line 239).
Returns the region, the new buffer state, and whether a refill was
submitted. -/
def take_one (m : LiveCamBuffers) (i : Nat) :
    Option (List Nat) × LiveCamBuffers × Bool :=
  match (m.queues.getD i []) with
  | [] => (none, m, check_and_refill_continent m i)
  | r :: rest =>
    let m' : LiveCamBuffers :=
      ⟨m.target_buffer, m.low_watermark, m.queues.set i rest, m.prefetching⟩
    (some r, m', check_and_refill_continent m' i)

/-- The C3 scenario: one partition with `target_buffer = 4`,
`low_watermark = 2`, exactly 4 pre-enqueued synthetic regions, and no refill
in flight. -/
def c3Buffers : LiveCamBuffers := ⟨4, 2, [[[1], [2], [3], [4]]], [false]⟩

/-- C3 counterexample: in the claim's own scenario the THIRD consumption
(draining the queue from 2 to 1, and 1 < low_watermark = 2) already submits a
refill, refuting "the first three consecutive take-one consumptions trigger
no refill submission". The check runs on the post-pop queue length with a
strict `<` against the watermark. -/
theorem take_one_third_consumption_submits :
    (take_one (take_one (take_one c3Buffers 0).2.1 0).2.1 0).2.2 = true := by
  rfl

/-- C3 amended: in the scenario with `target_buffer = 4`, `low_watermark = 2`,
4 seeded regions and no refill in flight, the first two consumptions (draining
4 to 2) trigger no refill submission, and the third consumption (draining to
1, strictly below the watermark, partition not yet refilling) triggers exactly
one refill submission. -/
theorem take_one_refill_trigger_schedule :
    (take_one c3Buffers 0).2.2 = false ∧
    (take_one (take_one c3Buffers 0).2.1 0).2.2 = false ∧
    (take_one (take_one (take_one c3Buffers 0).2.1 0).2.1 0).2.2 = true := by
  exact ⟨rfl, rfl, rfl⟩

/-- `collect` of `LiveCamSource` (src/entropy/livecam.py lines 220-246) as its
effect on the buffer state: pop one region from every non-empty continent
queue, run the refill check on every continent, and fail with the
`RuntimeError "No image entropy available"` exactly when the combined bytes
are empty. The startup gate and the bounded `_startup_complete.wait` are
timing behaviour outside this state model. Returns the collection outcome,
the new buffers, and the number of refill submissions. -/
def livecam_collect (m : LiveCamBuffers) :
    Except String (List Nat) × LiveCamBuffers × Nat :=
  let combined := (m.queues.filterMap List.head?).flatten
  let m' : LiveCamBuffers :=
    ⟨m.target_buffer, m.low_watermark, m.queues.map List.tail, m.prefetching⟩
  let submissions :=
    ((List.range m'.queues.length).filter (fun i => check_and_refill_continent m' i)).length
  (if combined.isEmpty then Except.error "No image entropy available" else Except.ok combined,
   m', submissions)

/-- `has_regions` (src/entropy/livecam.py lines 248-250): true when every
continent queue is non-empty. -/
def has_regions (m : LiveCamBuffers) : Bool :=
  m.queues.all (fun q => decide (0 < q.length))

/-- `regions_count` (src/entropy/livecam.py lines 252-254). -/
def regions_count (m : LiveCamBuffers) : Nat :=
  (m.queues.map List.length).sum

/-- `is_prefetching` (src/entropy/livecam.py lines 260-262). -/
def is_prefetching (m : LiveCamBuffers) : Bool :=
  m.prefetching.any id

structure HealthResponse where
  status : Nat
  total_regions : Nat
  prefetching : Bool

/-- The `/health` handler (src/rng.py lines 176-186): always HTTP 200 with
observed counts; no failure path reads any source. -/
def health (src : Option LiveCamBuffers) : HealthResponse :=
  ⟨200,
   match src with | some m => regions_count m | none => 0,
   match src with | some m => is_prefetching m | none => false⟩

/-- C6: when every partition queue is empty, `collect` of the image-backed
source fails internally (`RuntimeError "No image entropy available"`, the
spec's `ExhaustedBufferError`); the `/rng` handler catches any such failure
and proceeds exactly as if zero image-derived bytes had been collected, and
both endpoints still answer with status 200 — never an error status — for
every state and environment. -/
theorem collect_exhausted_recovered (m : LiveCamBuffers)
    (hq : ∀ q ∈ m.queues, q = []) (s : RngState) (env : RngEnv) (msg : String) :
    (livecam_collect m).1 = Except.error "No image entropy available" ∧
    (rng s ⟨env.now, env.urandom_rot, env.cpu_net_entropy, env.time_ns_rot, env.now_rot,
            Except.error msg, env.cpu_entropy, env.urandom_out, env.time_ns_out⟩).2 =
      (rng s ⟨env.now, env.urandom_rot, env.cpu_net_entropy, env.time_ns_rot, env.now_rot,
              Except.ok [], env.cpu_entropy, env.urandom_out, env.time_ns_out⟩).2 ∧
    (rng s env).2.status = 200 ∧
    (health (some m)).status = 200 := by
  refine ⟨?_, ?_, ?_, ?_⟩
  · have hnil : m.queues.filterMap List.head? = [] := by
      apply List.filterMap_eq_nil_iff.mpr
      intro q hqmem
      rw [hq q hqmem]
      rfl
    simp [livecam_collect, hnil]
  · simp [rng, output_entropy, rotate_secret, rotation_entropy]
  · simp [rng]
  · rfl

/-- Closed witness for `collect_exhausted_recovered`: the five empty continent
queues of a fresh source, a zeroed request state and environment. -/
theorem collect_exhausted_recovered_witness :
    (livecam_collect ⟨50, 25, [[], [], [], [], []], [false, false, false, false, false]⟩).1 =
      Except.error "No image entropy available" :=
  (collect_exhausted_recovered
    ⟨50, 25, [[], [], [], [], []], [false, false, false, false, false]⟩
    (by decide) ⟨0, 0, []⟩ ⟨0, [], [], 0, 0, Except.ok [], [], [], 0⟩ "boom").1

/-- Python errors observable from the embedded fragments. -/
inductive PyError where
  | attributeError : String → PyError
deriving DecidableEq

/-- Attribute names defined on a `LiveCamSource` object: instance attributes
set in `__init__` (src/entropy/livecam.py lines 38-64) and the methods and
properties of the class (lines 66-262). Python attribute lookup on any other
name raises `AttributeError`. -/
def liveCamSourceAttributes : List String :=
  ["_region_size", "_timeout", "_target_buffer", "_low_watermark",
   "_regions_by_continent", "_continent_prefetch_lock", "_continent_prefetching",
   "_executor", "_started", "_startup_complete",
   "name", "_fetch_image", "_slice_regions", "_discover_continent_images",
   "_fetch_and_enqueue_for_continent", "_fill_continent_buffer",
   "_check_and_refill_continent", "_check_all_continents", "start", "collect",
   "has_regions", "regions_count", "regions_by_continent", "is_prefetching"]

/-- `EntropyPool.ensure_livecam_regions` (src/rng.py lines 76-79): when an
image-backed source is present and `has_regions()` is false, it evaluates
`self._livecam_source.refill_regions()`; the attribute lookup is modelled
against the names actually defined on `LiveCamSource`, so an undefined name
surfaces as `AttributeError`. No state is touched on any path. -/
def ensure_livecam_regions (src : Option LiveCamBuffers) : Except PyError Unit :=
  match src with
  | none => Except.ok ()
  | some m =>
    if has_regions m then Except.ok ()
    else if "refill_regions" ∈ liveCamSourceAttributes then Except.ok ()
    else Except.error (PyError.attributeError "refill_regions")

/-- C9: with an image-backed source present and at least one partition queue
empty, `ensure_livecam_regions` raises `AttributeError` — `LiveCamSource`
defines no `refill_regions` — while with no source, or with every queue
non-empty, it returns normally (and, being stateless in the embedding,
changes nothing). -/
theorem ensure_livecam_regions_attribute_error (m : LiveCamBuffers) :
    ((∃ q ∈ m.queues, q = []) →
      ensure_livecam_regions (some m) = Except.error (PyError.attributeError "refill_regions")) ∧
    ensure_livecam_regions none = Except.ok () ∧
    ((∀ q ∈ m.queues, q ≠ []) → ensure_livecam_regions (some m) = Except.ok ()) := by
  refine ⟨?_, rfl, ?_⟩
  · rintro ⟨q, hqmem, rfl⟩
    have hfalse : has_regions m = false := by
      rw [has_regions]
      apply List.all_eq_false.mpr
      exact ⟨[], hqmem, by decide⟩
    simp [ensure_livecam_regions, hfalse, liveCamSourceAttributes]
  · intro hne
    have htrue : has_regions m = true := by
      rw [has_regions]
      apply List.all_eq_true.mpr
      intro q hqmem
      have := hne q hqmem
      simp only [decide_eq_true_eq]
      cases q with
      | nil => exact absurd rfl this
      | cons a t => simp
    simp [ensure_livecam_regions, htrue]

/-- Closed witness for `ensure_livecam_regions_attribute_error`: a source with
one empty partition raises, and an absent source returns normally. -/
theorem ensure_livecam_regions_attribute_error_witness :
    ensure_livecam_regions (some ⟨4, 2, [[[1]], []], [false, false]⟩) =
      Except.error (PyError.attributeError "refill_regions") ∧
    ensure_livecam_regions none = Except.ok () :=
  ⟨(ensure_livecam_regions_attribute_error ⟨4, 2, [[[1]], []], [false, false]⟩).1
     ⟨[], by decide, rfl⟩,
   (ensure_livecam_regions_attribute_error ⟨4, 2, [[[1]], []], [false, false]⟩).2.1⟩

/-! ## At-most-one refill job per partition (src/entropy/livecam.py, `_fill_continent_buffer`)

Interleaving semantics of one partition's refill protocol. Each submitted
refill job is in one of three phases:
  * `waiting`  — submitted, has not yet executed the test-and-set of lines
    147-150 (`with lock: if prefetching: return; prefetching = True`);
  * `running`  — passed the test-and-set and is executing the body, lines
    152-175 (discover, fetch, enqueue); only such a job does any work;
  * `finished` — returned, either by bailing at line 149 on seeing the flag
    set, or through the guaranteed `finally` of lines 176-178 which clears
    the flag unconditionally, on success and on error alike.
The three constructors of `RefillStep` are exactly those three atomic
transitions; jobs interleave arbitrarily. -/

inductive JobPhase where
  | waiting
  | running
  | finished
deriving DecidableEq

structure RefillPartition where
  prefetching : Bool
  jobs : Multiset JobPhase

inductive RefillStep : RefillPartition → RefillPartition → Prop where
  | enter (s : RefillPartition) (hj : JobPhase.waiting ∈ s.jobs)
      (hflag : s.prefetching = false) :
      RefillStep s ⟨true, s.jobs.erase JobPhase.waiting + {JobPhase.running}⟩
  | bail (s : RefillPartition) (hj : JobPhase.waiting ∈ s.jobs)
      (hflag : s.prefetching = true) :
      RefillStep s ⟨true, s.jobs.erase JobPhase.waiting + {JobPhase.finished}⟩
  | finish (s : RefillPartition) (hj : JobPhase.running ∈ s.jobs) :
      RefillStep s ⟨false, s.jobs.erase JobPhase.running + {JobPhase.finished}⟩

/-- Initial partition state: flag clear, `n` submitted jobs, none started. -/
def initRefill (n : Nat) : RefillPartition :=
  ⟨false, Multiset.replicate n JobPhase.waiting⟩

def runningJobs (s : RefillPartition) : Nat :=
  s.jobs.count JobPhase.running

/-- The inductive invariant: the flag is set exactly while one job is in the
body of `_fill_continent_buffer`. -/
def RefillInv (s : RefillPartition) : Prop :=
  runningJobs s = if s.prefetching then 1 else 0

theorem refillInv_init (n : Nat) : RefillInv (initRefill n) := by
  simp [RefillInv, initRefill, runningJobs, Multiset.count_replicate]

theorem refillInv_step (s t : RefillPartition) (hinv : RefillInv s)
    (hstep : RefillStep s t) : RefillInv t := by
  cases hstep with
  | enter hj hflag =>
    rw [RefillInv, runningJobs] at hinv ⊢
    rw [hflag] at hinv
    simp only [if_false, Bool.false_eq_true] at hinv
    simp [Multiset.count_add, Multiset.count_singleton,
      Multiset.count_erase_of_ne (by decide : JobPhase.running ≠ JobPhase.waiting), hinv]
  | bail hj hflag =>
    rw [RefillInv, runningJobs] at hinv ⊢
    rw [hflag] at hinv
    simp only [if_true] at hinv
    simp [Multiset.count_add, Multiset.count_singleton,
      Multiset.count_erase_of_ne (by decide : JobPhase.running ≠ JobPhase.waiting),
      Multiset.count_erase_of_ne (by decide : JobPhase.running ≠ JobPhase.finished), hinv]
  | finish hj =>
    rw [RefillInv, runningJobs] at hinv ⊢
    have hcount : 1 ≤ s.jobs.count JobPhase.running := Multiset.one_le_count_iff_mem.mpr hj
    simp only [Multiset.count_add, Multiset.count_singleton,
      Multiset.count_erase_self,
      Multiset.count_erase_of_ne (by decide : JobPhase.running ≠ JobPhase.finished)]
    split at hinv <;> simp_all

/-- C5: in every state reachable from any number of submitted refill jobs, at
most one job is inside the body of `_fill_continent_buffer` for the partition
at any instant, and the `refilling` flag is set exactly while that one job
runs: the flag is taken by test-and-set under the partition lock before any
work, a second job observing it set does nothing, and the guaranteed
`finally` step clears it when the holding job ends. -/
theorem refill_at_most_one_running (n : Nat) (s : RefillPartition)
    (hreach : Relation.ReflTransGen RefillStep (initRefill n) s) :
    runningJobs s ≤ 1 ∧ (s.prefetching = true ↔ runningJobs s = 1) := by
  have hinv : RefillInv s := by
    induction hreach with
    | refl => exact refillInv_init n
    | tail _ hstep ih => exact refillInv_step _ _ ih hstep
  rw [RefillInv] at hinv
  constructor
  · rw [hinv]; split <;> omega
  · cases hp : s.prefetching <;> simp_all

/-- Closed witness for `refill_at_most_one_running`: the initial state with 50
concurrently submitted jobs (the spec's concurrent-trigger scenario) has no
running job and a clear flag. -/
theorem refill_at_most_one_running_witness :
    runningJobs (initRefill 50) ≤ 1 ∧
      ((initRefill 50).prefetching = true ↔ runningJobs (initRefill 50) = 1) :=
  refill_at_most_one_running 50 (initRefill 50) Relation.ReflTransGen.refl

/-! ## Timing jitter sources (src/entropy/cpu_jitter.py, src/entropy/network_jitter.py) -/

/-- `CpuJitterSource.collect` (src/entropy/cpu_jitter.py lines 27-38): one
loop iteration per configured iteration, each contributing the 8-byte
big-endian encoding of the measured `perf_counter_ns` delta. The deltas are
the environment input (the busy loop only burns time). -/
def cpu_jitter_collect (deltas : List Nat) : List Nat :=
  (deltas.map (toBytesBE 8)).flatten

/-- One iteration of `NetworkJitterSource.collect`
(src/entropy/network_jitter.py lines 52-59): the `requests.head` probe sits in
a `try`/`except Exception: pass`, so whether the probe succeeded or raised
contributes nothing — the timing delta is encoded regardless. -/
def network_probe_iteration (delta : Nat) (_probeFailed : Bool) : List Nat :=
  toBytesBE 8 delta

/-- `NetworkJitterSource.collect` (src/entropy/network_jitter.py lines
47-61): one probe iteration per configured iteration against the round-robin
URL, concatenating the per-iteration bytes. -/
def network_jitter_collect (samples : List (Nat × Bool)) : List Nat :=
  (samples.map (fun p => network_probe_iteration p.1 p.2)).flatten

theorem flatten_map_toBytesBE8_length (l : List (List Nat)) (h : ∀ b ∈ l, b.length = 8) :
    l.flatten.length = 8 * l.length := by
  induction l with
  | nil => simp
  | cons b t ih =>
    have hb := h b (List.mem_cons_self b t)
    have ht := fun x hx => h x (List.mem_cons_of_mem b hx)
    simp only [List.flatten_cons, List.length_append, List.length_cons, ih ht, hb]
    ring

/-- C10: for every configured iteration count `n`, `CpuJitterSource.collect`
returns exactly `8 * n` bytes, and `NetworkJitterSource.collect` likewise
returns exactly `8 * n` bytes regardless of how many network probes failed —
probe exceptions are swallowed and each timing delta is recorded regardless.
Both embedded collectors are total: no path raises. -/
theorem jitter_collect_lengths (n : Nat) (deltas : List Nat)
    (samples : List (Nat × Bool)) (hd : deltas.length = n) (hs : samples.length = n) :
    (cpu_jitter_collect deltas).length = 8 * n ∧
    (network_jitter_collect samples).length = 8 * n := by
  constructor
  · rw [cpu_jitter_collect, flatten_map_toBytesBE8_length]
    · rw [List.length_map, hd]
    · intro b hb
      obtain ⟨d, _, rfl⟩ := List.mem_map.mp hb
      exact toBytesBE_length 8 d
  · rw [network_jitter_collect, flatten_map_toBytesBE8_length]
    · rw [List.length_map, hs]
    · intro b hb
      obtain ⟨p, _, rfl⟩ := List.mem_map.mp hb
      exact toBytesBE_length 8 p.1

/-- Closed witness for `jitter_collect_lengths`: the default CPU configuration
of 8 iterations, with the network probes all failing. -/
theorem jitter_collect_lengths_witness :
    (cpu_jitter_collect [3, 1, 4, 1, 5, 9, 2, 6]).length = 8 * 8 ∧
    (network_jitter_collect [(3, true), (1, true), (4, true), (1, true),
      (5, true), (9, true), (2, true), (6, true)]).length = 8 * 8 :=
  jitter_collect_lengths 8 [3, 1, 4, 1, 5, 9, 2, 6]
    [(3, true), (1, true), (4, true), (1, true), (5, true), (9, true), (2, true), (6, true)]
    (by decide) (by decide)
